import Mathlib

/-!
Shallow embedding of the core of the iota-sdk client and wallet sources:
the high-level client operations (`retry_until_included`, `find_inputs`,
`get_time_checked` from client/src/client/high_level.rs), the account
syncing commit (`sync_account` and `update_account` from
src/account/operations/syncing/mod.rs), and the `Burn`/`BurnDto`
serialization pair (sdk/src/client/api/block_builder/input_selection/burn.rs).

Identifiers are `Nat`-encoded (BlockId, TransactionId, OutputId, Block
contents, token ids). Machine integers (`u32` timestamps, `u64` amounts,
`u128` millis) are modelled as `Nat`, with wrap-around made explicit via
`% U32_MOD` exactly where the source arithmetic can overflow. Network and
storage collaborators are modelled as explicit oracles passed in, so that
the control flow of the source functions is a pure function of those
oracles; a network call that can fail is an `Except` value in the oracle.
-/

/-- Value of the crate constant `INPUT_COUNT_MAX` (ledger input-count limit). -/
def INPUT_COUNT_MAX : Nat := 128

/-- Value of the crate constant `FIVE_MINUTES_IN_SECONDS`. -/
def FIVE_MINUTES_IN_SECONDS : Nat := 300

/-- Value of the crate constant `DEFAULT_RETRY_UNTIL_INCLUDED_INTERVAL` (seconds). -/
def DEFAULT_RETRY_UNTIL_INCLUDED_INTERVAL : Nat := 5

/-- Value of the crate constant `DEFAULT_RETRY_UNTIL_INCLUDED_MAX_AMOUNT` (rounds). -/
def DEFAULT_RETRY_UNTIL_INCLUDED_MAX_AMOUNT : Nat := 40

/-- Modulus of `u32` arithmetic. -/
def U32_MOD : Nat := 4294967296

/-- The client error taxonomy used by the embedded operations
(crate::error::Error variants that the mirrored code can produce). -/
inductive ClientError where
  | NotEnoughBalance (found : Nat) (required : Nat)
  | NoNeedPromoteOrReattach (id : Nat)
  | TangleInclusionError (id : Nat)
  | TimeNotSynced (current_time : Nat) (milestone_timestamp : Nat)
deriving DecidableEq, Repr

/-- Embedding of `Client::get_time_checked`. The client clock value
(`current_time`, a `u32` of unix seconds) and the node's optional latest
milestone timestamp are inputs. The source checks
`(latest_ms_timestamp - FIVE_MINUTES_IN_SECONDS..latest_ms_timestamp + FIVE_MINUTES_IN_SECONDS).contains(&current_time)`;
a Rust `Range<u32>` contains `t` iff `start <= t < end`, and the `u32`
bound arithmetic wraps, which the `% U32_MOD` makes explicit. -/
def get_time_checked (current_time : Nat) (latest_ms_timestamp : Option Nat) :
    Except ClientError Nat :=
  match latest_ms_timestamp with
  | none => .ok current_time
  | some ts =>
    let lo := (ts + U32_MOD - FIVE_MINUTES_IN_SECONDS) % U32_MOD
    let hi := (ts + FIVE_MINUTES_IN_SECONDS) % U32_MOD
    if lo ≤ current_time ∧ current_time < hi then .ok current_time
    else .error (.TimeNotSynced current_time ts)

/-- Mirror of `iota_types::block::input::UtxoInput`: a transaction id and
an output index naming one ledger output. -/
structure UtxoInput where
  transaction_id : Nat
  output_index : Nat
deriving DecidableEq, Repr

/-- Embedding of `basic_outputs.sort_by(|l, r| r.1.cmp(&l.1))` in
`find_inputs`: a stable sort by amount descending. Rust's `sort_by` is a
stable sort, and the comparator orders larger amounts first; Mathlib's
`List.insertionSort` with this relation is the stable sort for the same
total preorder, hence computes the same list. -/
def sortCandidates (l : List (UtxoInput × Nat)) : List (UtxoInput × Nat) :=
  l.insertionSort (fun a b => b.2 ≤ a.2)

/-- Embedding of the selection loop of `find_inputs`: walk the (already
sorted and truncated) candidates, breaking as soon as the running total
has reached `amount`, otherwise pushing the candidate and adding its
amount. Returns the selected pairs together with the final running
total (`total_already_spent` in the source). -/
def selectInputs (amount : Nat) : List (UtxoInput × Nat) → Nat → List (UtxoInput × Nat) × Nat
  | [], total => ([], total)
  | x :: xs, total =>
    if amount ≤ total then ([], total)
    else
      let rest := selectInputs amount xs (total + x.2)
      (x :: rest.1, rest.2)

/-- The pairs selected by `find_inputs` for a candidate pool: the loop
runs over the descending-sorted pool truncated to `INPUT_COUNT_MAX`. -/
def selectedPairs (candidates : List (UtxoInput × Nat)) (amount : Nat) :
    List (UtxoInput × Nat) :=
  (selectInputs amount ((sortCandidates candidates).take INPUT_COUNT_MAX) 0).1

/-- The final running total of the `find_inputs` selection loop. -/
def selectedTotal (candidates : List (UtxoInput × Nat)) (amount : Nat) : Nat :=
  (selectInputs amount ((sortCandidates candidates).take INPUT_COUNT_MAX) 0).2

/-- Embedding of `Client::find_inputs` after the network phase: the node
queries have produced the candidate pool of `(UtxoInput, amount)` pairs
(basic outputs whose unlock conditions passed the indexer filter, with
amounts computed at the checked time). The source sorts by amount
descending, takes at most `INPUT_COUNT_MAX`, accumulates until the target
is met, and fails with `NotEnoughBalance` when the final total is still
short of `amount`; on success it returns the selected `UtxoInput`s. -/
def find_inputs (candidates : List (UtxoInput × Nat)) (amount : Nat) :
    Except ClientError (List UtxoInput) :=
  let r := selectInputs amount ((sortCandidates candidates).take INPUT_COUNT_MAX) 0
  if r.2 < amount then .error (.NotEnoughBalance r.2 amount)
  else .ok (r.1.map (·.1))

/-- The candidate pool of the spec's scenarios S1-S3: four eligible basic
outputs with amounts 600, 400, 400, 300 on one address. -/
def examplePool : List (UtxoInput × Nat) :=
  [(⟨0, 0⟩, 600), (⟨0, 1⟩, 400), (⟨0, 2⟩, 400), (⟨0, 3⟩, 300)]

/-- Mirror of `Burn` (input_selection/burn.rs): sets of account, NFT and
foundry ids to burn, plus an ordered token-id-to-amount mapping. The Rust
`HashSet`s and `BTreeMap` are modelled as the lists of their elements;
the conversions below clone collections wholesale, so list-level equality
mirrors collection-level equality. -/
structure Burn where
  accounts : List Nat
  nfts : List Nat
  foundries : List Nat
  native_tokens : List (Nat × Nat)
deriving DecidableEq, Repr

/-- Mirror of `BurnDto`: every field is optional on the wire
(`skip_serializing_if = "Option::is_none"`). -/
structure BurnDto where
  accounts : Option (List Nat)
  nfts : Option (List Nat)
  foundries : Option (List Nat)
  native_tokens : Option (List (Nat × Nat))
deriving DecidableEq, Repr

/-- Embedding of `impl From<&Burn> for BurnDto`: each field becomes
`None` when the collection is empty, `Some` of a clone otherwise
(`(!value.x.is_empty()).then_some(value.x.clone())`). -/
def burnToDto (b : Burn) : BurnDto where
  accounts := if b.accounts.isEmpty then none else some b.accounts
  nfts := if b.nfts.isEmpty then none else some b.nfts
  foundries := if b.foundries.isEmpty then none else some b.foundries
  native_tokens := if b.native_tokens.isEmpty then none else some b.native_tokens

/-- Embedding of `impl From<BurnDto> for Burn`: each field is
`value.x.unwrap_or_default()`, so an absent field becomes the empty
collection. -/
def burnFromDto (d : BurnDto) : Burn where
  accounts := d.accounts.getD []
  nfts := d.nfts.getD []
  foundries := d.foundries.getD []
  native_tokens := d.native_tokens.getD []

/-- A wire value with an explicit empty `accounts` set, distinguishing the
empty-set wire state from the absent one. -/
def someEmptyDto : BurnDto := ⟨some [], none, none, none⟩

/-- The three ledger inclusion states reported in block metadata
(`LedgerInclusionStateDto`). -/
inductive LedgerInclusionState where
  | Included
  | NoTransaction
  | Conflicting
deriving DecidableEq, Repr

/-- Mirror of the block metadata fields that `retry_until_included`
reads; `none` means the node omitted the field. -/
structure BlockMetadata where
  ledger_inclusion_state : Option LedgerInclusionState
  should_promote : Option Bool
  should_reattach : Option Bool
deriving DecidableEq, Repr

/-- Oracle for the node endpoints that the inclusion tracker calls.
Metadata is indexed by the round number, determinizing the node's answers
over time; `reattach` gives the `(BlockId, Block)` pair that
`reattach_unchecked` would produce in a given round;
`payloadTransactionId` is `some` exactly when the fetched block carries a
`Transaction` payload (yielding that payload's transaction id), and
`includedBlock` is the `(id, block)` pair obtained from
`get_included_block`. All calls are modelled as succeeding. -/
structure Node where
  meta : Nat → Nat → BlockMetadata
  getBlock : Nat → Nat
  reattach : Nat → Nat → Nat × Nat
  payloadTransactionId : Nat → Option Nat
  includedBlock : Nat → Nat × Nat

/-- Rust `Vec::rotate_left(mid)` for `mid ≤ len`: the element at position
`mid` moves to the front and the prefix is appended behind. -/
def rustRotateLeft (l : List α) (mid : Nat) : List α :=
  l.drop mid ++ l.take mid

/-- Mutable state of `retry_until_included`: the attachment ids checked
each round (`block_ids`, the original first) and the reattached
`(BlockId, Block)` pairs collected so far (`blocks_with_id`). -/
structure TrackState where
  block_ids : List Nat
  blocks_with_id : List (Nat × Nat)
deriving DecidableEq, Repr

/-- Outcome of one scan over the attachments of a round: either the
function returned a result list, or the scan finished with an updated
state and the `conflicting` flag. -/
inductive ScanOutcome where
  | returned (result : List (Nat × Nat))
  | scanned (st : TrackState) (conflicting : Bool)

/-- Embedding of the per-round attachment scan of `retry_until_included`:
iterate over the clone of `block_ids` taken at round start (`remaining`,
with `index` counting from 0 and `len` the clone's length). An attachment
observed `Included` or `NoTransaction` returns immediately: the original
id returns `(block_id, get_block(block_id))` prepended to
`blocks_with_id`, any other attachment returns
`blocks_with_id.rotate_left(index)`. `Conflicting` only sets the flag.
Afterwards, only at the last index, the node's recommendation is honored:
promote posts a block without touching the state, reattach appends the
new pair to both lists. -/
def scanAttachments (node : Node) (origId : Nat) (round : Nat) (len : Nat) :
    List Nat → Nat → TrackState → Bool → ScanOutcome
  | [], _, st, conflicting => .scanned st conflicting
  | bid :: remaining, index, st, conflicting =>
    let md := node.meta round bid
    if md.ledger_inclusion_state = some .Included ∨
        md.ledger_inclusion_state = some .NoTransaction then
      if bid = origId then
        .returned ((origId, node.getBlock origId) :: st.blocks_with_id)
      else
        .returned (rustRotateLeft st.blocks_with_id index)
    else
      let conflicting := conflicting ∨ md.ledger_inclusion_state = some .Conflicting
      if index = len - 1 then
        if md.should_promote.getD false then
          scanAttachments node origId round len remaining (index + 1) st conflicting
        else if md.should_reattach.getD false then
          let r := node.reattach round (st.block_ids.getLastD bid)
          scanAttachments node origId round len remaining (index + 1)
            { st with
              block_ids := st.block_ids ++ [r.1],
              blocks_with_id := st.blocks_with_id ++ [r] } conflicting
        else
          scanAttachments node origId round len remaining (index + 1) st conflicting
      else
        scanAttachments node origId round len remaining (index + 1) st conflicting

/-- Embedding of the round loop of `retry_until_included`: `fuel` rounds
remain; each round scans the attachments, then, if some attachment was
`Conflicting`, fetches the original block and, when it carries a
transaction payload, returns the included block of that transaction
prepended to the collected reattachments. When the rounds are exhausted
the call fails with `TangleInclusionError`. -/
def retryRounds (node : Node) (origId : Nat) :
    Nat → Nat → TrackState → Except ClientError (List (Nat × Nat))
  | 0, _, _ => .error (.TangleInclusionError origId)
  | fuel + 1, round, st =>
    let clone := st.block_ids
    match scanAttachments node origId round clone.length clone 0 st false with
    | .returned result => .ok result
    | .scanned st1 conflicting =>
      if conflicting then
        match node.payloadTransactionId (node.getBlock origId) with
        | some txId => .ok (node.includedBlock txId :: st1.blocks_with_id)
        | none => retryRounds node origId fuel (round + 1) st1
      else retryRounds node origId fuel (round + 1) st1

/-- Embedding of `Client::retry_until_included` against a node oracle:
start with the single original attachment and no reattachments, and run
at most `max_attempts` (default 40) rounds. The `interval` argument only
drives the sleep between rounds and does not affect the result. -/
def retry_until_included (node : Node) (block_id : Nat)
    (interval : Option Nat) (max_attempts : Option Nat) :
    Except ClientError (List (Nat × Nat)) :=
  let _ := interval.getD DEFAULT_RETRY_UNTIL_INCLUDED_INTERVAL
  retryRounds node block_id (max_attempts.getD DEFAULT_RETRY_UNTIL_INCLUDED_MAX_AMOUNT)
    0 ⟨[block_id], []⟩

/-- A concrete node oracle under which block 0's transaction gets two
reattachments (ids 10 then 11) before the first reattachment is observed
`Included`: round 0 recommends reattaching the original block 0, round 1
recommends reattaching the last attachment 10, and in round 2 attachment
10 (scanned at index 1) is reported `Included`. Block contents are
`id + 100`, and no block carries a transaction payload. -/
def nodeC1 : Node where
  meta := fun round bid =>
    if round = 0 ∧ bid = 0 then ⟨none, none, some true⟩
    else if round = 1 ∧ bid = 10 then ⟨none, none, some true⟩
    else if round = 2 ∧ bid = 10 then ⟨some .Included, none, none⟩
    else ⟨none, none, none⟩
  getBlock := fun bid => bid + 100
  reattach := fun round _ => if round = 0 then (10, 110) else (11, 111)
  payloadTransactionId := fun _ => none
  includedBlock := fun _ => (0, 0)

/-- The wallet error taxonomy relevant to the embedded sync engine:
the commit's exact-lookup failure, plus opaque network and storage
errors propagated from collaborators. -/
inductive WalletError where
  | InputAddressNotFound
  | Network (code : Nat)
  | Storage (code : Nat)
deriving DecidableEq, Repr

/-- Mirror of an entry of the account's `internal_addresses` or
`public_addresses` sequences: derivation key index, internal flag and the
`used` marker (the other address fields are irrelevant to the commit). -/
structure AccountAddress where
  key_index : Nat
  internal : Bool
  used : Bool
deriving DecidableEq, Repr

/-- Mirror of `AddressWithBalance` as produced by the sync pipeline:
key index, internal flag, synthesized amount, and the output ids observed
on the address. -/
structure AddressWithBalance where
  key_index : Nat
  internal : Bool
  amount : Nat
  output_ids : List Nat
deriving DecidableEq, Repr

/-- Mirror of `OutputData` restricted to the fields the commit reads:
its output id, amount and the `is_spent` flag. -/
structure OutputData where
  output_id : Nat
  amount : Nat
  is_spent : Bool
deriving DecidableEq, Repr

/-- Inclusion states of a tracked transaction; the commit only
distinguishes `Confirmed` and `Conflicting` from the rest. -/
inductive InclusionState where
  | Pending
  | Confirmed
  | Conflicting
deriving DecidableEq, Repr

/-- Mirror of a tracked transaction: its payload id and inclusion state. -/
structure TransactionData where
  transaction_id : Nat
  inclusion_state : InclusionState
deriving DecidableEq, Repr

/-- Mirror of `TransactionSyncResult` produced by the transaction-sync
subroutine. -/
structure TransactionSyncResult where
  updated_transactions : List TransactionData
  spent_output_ids : List Nat
  output_ids_to_unlock : List Nat
deriving DecidableEq, Repr

/-- The sync options consumed by `sync_account`/`update_account`. -/
structure SyncOptions where
  force_syncing : Bool
  address_start_index : Nat
deriving DecidableEq, Repr

/-- Lookup in a key-value map modelled as an association list (first
match wins, as with `HashMap::get` under the unique-key discipline the
insert below maintains). -/
def lookupMap : List (Nat × α) → Nat → Option α
  | [], _ => none
  | p :: rest, k => if p.1 = k then some p.2 else lookupMap rest k

/-- Remove a key from an association map (`HashMap::remove`). -/
def removeMap : List (Nat × α) → Nat → List (Nat × α)
  | [], _ => []
  | p :: rest, k => if p.1 = k then removeMap rest k else p :: removeMap rest k

/-- Insert (or replace) a key in an association map (`HashMap::insert`). -/
def insertMap (m : List (Nat × α)) (k : Nat) (v : α) : List (Nat × α) :=
  (k, v) :: removeMap m k

/-- Apply a function to the value stored under a key, when present
(`HashMap::get_mut` followed by a field assignment). -/
def modifyMap : List (Nat × α) → Nat → (α → α) → List (Nat × α)
  | [], _, _ => []
  | p :: rest, k, f =>
    if p.1 = k then (p.1, f p.2) :: modifyMap rest k f
    else p :: modifyMap rest k f

/-- Remove an element from a set modelled as a list (`HashSet::remove`). -/
def removeElem : List Nat → Nat → List Nat
  | [], _ => []
  | x :: rest, k => if x = k then removeElem rest k else x :: removeElem rest k

/-- Mirror of the per-account `AccountState` fields touched by the sync
commit: the two address sequences, `addresses_with_balance`, the
authoritative `outputs` map, the derived `unspent_outputs` map, the
`locked_outputs` set, the `transactions` map and the
`pending_transactions` set. -/
structure AccountState where
  internal_addresses : List AccountAddress
  public_addresses : List AccountAddress
  addresses_with_balance : List AddressWithBalance
  outputs : List (Nat × OutputData)
  unspent_outputs : List (Nat × OutputData)
  locked_outputs : List Nat
  transactions : List (Nat × TransactionData)
  pending_transactions : List Nat
deriving DecidableEq, Repr

/-- Mark the `used` flag of the first address entry with the given
`(key_index, internal)` key; `none` when no entry matches. The source
uses `binary_search_by_key` on the sorted address sequence, which finds
exactly the entry with that key iff one is present, so an exact search
is the faithful model. -/
def markUsedGo : List AccountAddress → Nat → Bool → Option (List AccountAddress)
  | [], _, _ => none
  | a :: rest, k, internal =>
    if a.key_index = k ∧ a.internal = internal then
      some ({ a with used := true } :: rest)
    else
      (markUsedGo rest k internal).map (a :: ·)

/-- First phase of `update_account`: mark every synced address `used` in
the matching address sequence; a miss is the `InputAddressNotFound`
invariant violation, reported through the `false` flag with the state as
mutated so far (the source mutates through the write guard, so earlier
markings persist). -/
def markAddressesUsed : AccountState → List AddressWithBalance → AccountState × Bool
  | acc, [] => (acc, true)
  | acc, a :: rest =>
    if a.internal then
      match markUsedGo acc.internal_addresses a.key_index a.internal with
      | none => (acc, false)
      | some addrs => markAddressesUsed { acc with internal_addresses := addrs } rest
    else
      match markUsedGo acc.public_addresses a.key_index a.internal with
      | none => (acc, false)
      | some addrs => markAddressesUsed { acc with public_addresses := addrs } rest

/-- Output-insertion phase of `update_account`: every observed output is
inserted into `outputs`, and additionally into `unspent_outputs` iff its
`is_spent` flag is false. -/
def insertOutputs : AccountState → List OutputData → AccountState
  | acc, [] => acc
  | acc, o :: rest =>
    insertOutputs
      { acc with
        outputs := insertMap acc.outputs o.output_id o,
        unspent_outputs :=
          if o.is_spent then acc.unspent_outputs
          else insertMap acc.unspent_outputs o.output_id o } rest

/-- Transaction phase of `update_account`: a transaction whose new state
is `Confirmed` or `Conflicting` leaves `pending_transactions`; every
updated transaction is upserted into `transactions`. -/
def applyTransactions : AccountState → List TransactionData → AccountState
  | acc, [] => acc
  | acc, t :: rest =>
    let pending :=
      match t.inclusion_state with
      | .Confirmed => removeElem acc.pending_transactions t.transaction_id
      | .Conflicting => removeElem acc.pending_transactions t.transaction_id
      | _ => acc.pending_transactions
    applyTransactions
      { acc with
        pending_transactions := pending,
        transactions := insertMap acc.transactions t.transaction_id t } rest

/-- Sets the `is_spent` flag of an output record. -/
def setSpent (o : OutputData) : OutputData := { o with is_spent := true }

/-- Spent-output phase of `update_account`: each id of
`spent_output_ids` is marked spent in `outputs` when present and removed
from both `locked_outputs` and `unspent_outputs`. -/
def processSpentOutputs : AccountState → List Nat → AccountState
  | acc, [] => acc
  | acc, id :: rest =>
    processSpentOutputs
      { acc with
        outputs := modifyMap acc.outputs id setSpent,
        locked_outputs := removeElem acc.locked_outputs id,
        unspent_outputs := removeMap acc.unspent_outputs id } rest

/-- Unlock phase of `update_account`: each id of `output_ids_to_unlock`
is marked spent in `outputs` when present and removed from
`locked_outputs` — and, unlike the spent phase, NOT removed from
`unspent_outputs` (the source only calls `locked_outputs.remove`). -/
def processOutputsToUnlock : AccountState → List Nat → AccountState
  | acc, [] => acc
  | acc, id :: rest =>
    processOutputsToUnlock
      { acc with
        outputs := modifyMap acc.outputs id setSpent,
        locked_outputs := removeElem acc.locked_outputs id } rest

/-- Embedding of `update_account`: mark synced addresses used (a miss
aborts with `InputAddressNotFound`), retain only the old
`addresses_with_balance` entries below `address_start_index` and append
the fresh ones, insert observed outputs, apply updated transactions, then
process `spent_output_ids` and `output_ids_to_unlock`. Finally the
account is persisted; `saveError` is the storage collaborator's result
(`none` on success). The returned state carries all in-memory mutations
performed before a failure, as the source mutates through the write
guard. -/
def update_account (acc : AccountState)
    (addresses_with_balance : List AddressWithBalance)
    (outs : List OutputData) (tsr : TransactionSyncResult)
    (options : SyncOptions) (saveError : Option WalletError) :
    AccountState × Option WalletError :=
  match markAddressesUsed acc addresses_with_balance with
  | (acc1, false) => (acc1, some .InputAddressNotFound)
  | (acc1, true) =>
    let kept := acc1.addresses_with_balance.filter
      (fun a => decide (a.key_index < options.address_start_index))
    let acc2 := { acc1 with addresses_with_balance := kept ++ addresses_with_balance }
    let acc3 := insertOutputs acc2 outs
    let acc4 := applyTransactions acc3 tsr.updated_transactions
    let acc5 := processSpentOutputs acc4 tsr.spent_output_ids
    let acc6 := processOutputsToUnlock acc5 tsr.output_ids_to_unlock
    (acc6, saveError)

/-- Oracle for the network and storage collaborators consumed by
`sync_account`, in call order: `sync_transactions`,
`get_addresses_to_sync`, `get_address_output_ids` (a function of the
addresses to sync), the per-address output fetch (a function of the
address's output ids, already converted to `OutputData`),
`consolidate_outputs`, and the storage save performed inside the commit
(`none` on success). -/
structure SyncNetwork where
  txSync : Except WalletError TransactionSyncResult
  addressesToSync : Except WalletError (List AddressWithBalance)
  addressOutputIds : List AddressWithBalance → Except WalletError (List AddressWithBalance)
  fetchOutputs : List Nat → Except WalletError (List OutputData)
  consolidate : Except WalletError Unit
  save : Option WalletError

/-- The per-address loop of `sync_account`: fetch each address's outputs,
set the address amount to their sum, and accumulate all outputs in
address order. Any fetch error aborts the whole loop. -/
def collectAddressOutputs (fetch : List Nat → Except WalletError (List OutputData)) :
    List AddressWithBalance → Except WalletError (List AddressWithBalance × List OutputData)
  | [] => .ok ([], [])
  | a :: rest =>
    match fetch a.output_ids with
    | .error e => .error e
    | .ok outs =>
      match collectAddressOutputs fetch rest with
      | .error e => .error e
      | .ok (addrs, allOuts) =>
        .ok ({ a with amount := (outs.map (·.amount)).sum } :: addrs, outs ++ allOuts)

/-- The network phase of `sync_account`, before any account mutation:
transactions first, then address selection, output-id discovery, the
per-address output fetch, and the consolidation hook (skipped when the
signer is of the hardware-wallet family). Returns the data handed to the
commit, or the first error. -/
def fetchPipeline (net : SyncNetwork) (signerIsLedger : Bool) :
    Except WalletError (TransactionSyncResult × List AddressWithBalance × List OutputData) :=
  match net.txSync with
  | .error e => .error e
  | .ok tsr =>
    match net.addressesToSync with
    | .error e => .error e
    | .ok toSync =>
      match net.addressOutputIds toSync with
      | .error e => .error e
      | .ok withIds =>
        match collectAddressOutputs net.fetchOutputs withIds with
        | .error e => .error e
        | .ok (awb, allOutputs) =>
          match (if signerIsLedger then Except.ok () else net.consolidate) with
          | .error e => .error e
          | .ok _ => .ok (tsr, awb, allOutputs)

/-- Observable outcome of one `sync_account` call: the returned balance
or error, the account state after the call, and the value of the
`last_synced` cell after the call. -/
structure SyncResultOut where
  result : Except WalletError Nat
  account : AccountState
  last_synced : Nat
deriving Repr

/-- Embedding of `sync_account`. `minSyncInterval` is the crate constant
`MIN_SYNC_INTERVAL` (milliseconds; its numeric value is
implementation-chosen), `balance` is the balance computation over the
account state, `timeNow` is the wall clock at entry and `timeEnd` the
wall clock re-read after the commit. If the last sync finished less than
`minSyncInterval` ago and `force_syncing` is off, the call returns the
balance of the untouched account without consulting the network.
Otherwise the network phase runs; any of its errors surfaces with the
account untouched. Then the commit runs; only when it fully succeeds is
`last_synced` advanced to `timeEnd`. -/
def sync_account (minSyncInterval : Nat) (balance : AccountState → Nat)
    (timeNow timeEnd : Nat) (signerIsLedger : Bool) (net : SyncNetwork)
    (options : SyncOptions) (lastSynced : Nat) (acc : AccountState) :
    SyncResultOut :=
  if timeNow - lastSynced < minSyncInterval ∧ options.force_syncing = false then
    ⟨.ok (balance acc), acc, lastSynced⟩
  else
    match fetchPipeline net signerIsLedger with
    | .error e => ⟨.error e, acc, lastSynced⟩
    | .ok (tsr, awb, allOutputs) =>
      match update_account acc awb allOutputs tsr options net.save with
      | (acc1, some e) => ⟨.error e, acc1, lastSynced⟩
      | (acc1, none) => ⟨.ok (balance acc1), acc1, timeEnd⟩

/-- The account state with every field empty. -/
def emptyAccount : AccountState := ⟨[], [], [], [], [], [], [], []⟩

/-- Pre-commit account state of the C3 counterexample: one unspent
output with id 1 (present in both maps and locked), nothing else. -/
def preC3 : AccountState :=
  { emptyAccount with
    outputs := [(1, ⟨1, 50, false⟩)],
    unspent_outputs := [(1, ⟨1, 50, false⟩)],
    locked_outputs := [1] }

/-- A sync network whose very first fetch (`sync_transactions`) fails
with a network error; the remaining stages are immaterial. -/
def netTxFail : SyncNetwork where
  txSync := .error (.Network 7)
  addressesToSync := .ok []
  addressOutputIds := fun a => .ok a
  fetchOutputs := fun _ => .ok []
  consolidate := .ok ()
  save := none

/-- A sync network with no discovered addresses and nothing to update;
used to instantiate the quick-resync theorem at a concrete input. -/
def netIdle : SyncNetwork where
  txSync := .ok ⟨[], [], []⟩
  addressesToSync := .ok []
  addressOutputIds := fun a => .ok a
  fetchOutputs := fun _ => .ok []
  consolidate := .ok ()
  save := none

/-- Pre-commit account state for the C3 amended-theorem witness: two
unspent outputs 1 and 2, both present in the two maps and locked. -/
def preC3W : AccountState :=
  { emptyAccount with
    outputs := [(1, ⟨1, 50, false⟩), (2, ⟨2, 60, false⟩)],
    unspent_outputs := [(1, ⟨1, 50, false⟩), (2, ⟨2, 60, false⟩)],
    locked_outputs := [1, 2] }

theorem selectInputs_fst_length_le (amount : Nat) :
    ∀ (l : List (UtxoInput × Nat)) (t : Nat),
      (selectInputs amount l t).1.length ≤ l.length
  | [], t => by simp [selectInputs]
  | x :: xs, t => by
    by_cases h : amount ≤ t
    · simp [selectInputs, h]
    · have ih := selectInputs_fst_length_le amount xs (t + x.2)
      simp only [selectInputs, if_neg h, List.length_cons]
      omega

theorem selectInputs_take_eq (amount : Nat) :
    ∀ (l : List (UtxoInput × Nat)) (t : Nat),
      l.take (selectInputs amount l t).1.length = (selectInputs amount l t).1
  | [], t => by simp [selectInputs]
  | x :: xs, t => by
    by_cases h : amount ≤ t
    · simp [selectInputs, h]
    · have ih := selectInputs_take_eq amount xs (t + x.2)
      simp [selectInputs, h, ih]

theorem selectInputs_snd_eq (amount : Nat) :
    ∀ (l : List (UtxoInput × Nat)) (t : Nat),
      (selectInputs amount l t).2 = t + (((selectInputs amount l t).1.map (·.2)).sum)
  | [], t => by simp [selectInputs]
  | x :: xs, t => by
    by_cases h : amount ≤ t
    · simp [selectInputs, h]
    · have ih := selectInputs_snd_eq amount xs (t + x.2)
      simp only [selectInputs, if_neg h, List.map_cons, List.sum_cons]
      omega

theorem selectInputs_take_sum_lt (amount : Nat) :
    ∀ (l : List (UtxoInput × Nat)) (t k : Nat),
      k < (selectInputs amount l t).1.length →
      t + ((((selectInputs amount l t).1.take k).map (·.2)).sum) < amount
  | [], t, k => by simp [selectInputs]
  | x :: xs, t, k => by
    by_cases h : amount ≤ t
    · simp [selectInputs, h]
    · intro hk
      simp only [selectInputs, if_neg h, List.length_cons] at hk ⊢
      match k with
      | 0 => simpa using Nat.lt_of_not_le h
      | k + 1 =>
        have ih := selectInputs_take_sum_lt amount xs (t + x.2) k (by omega)
        simp only [List.take_succ_cons, List.map_cons, List.sum_cons]
        omega

/-- C2: for every successful `find_inputs(candidates, amount)` with
result `R`, the sum of the selected amounts is at least `amount`, at most
`INPUT_COUNT_MAX = 128` inputs are selected, `R` is the projection of the
selected pairs, the selected pairs are a prefix (initial segment) of the
stable descending-by-amount sort of the candidate pool, and before each
selection step the running total was still strictly below `amount`
(selection stops immediately upon meeting the target). -/
theorem find_inputs_success_spec (c : List (UtxoInput × Nat)) (amount : Nat)
    (R : List UtxoInput) (h : find_inputs c amount = .ok R) :
    amount ≤ ((selectedPairs c amount).map (·.2)).sum ∧
    R.length ≤ INPUT_COUNT_MAX ∧
    R = (selectedPairs c amount).map (·.1) ∧
    (sortCandidates c).take (selectedPairs c amount).length = selectedPairs c amount ∧
    (∀ k, k < (selectedPairs c amount).length →
      (((selectedPairs c amount).take k).map (·.2)).sum < amount) := by
  have hsel : selectedPairs c amount =
      (selectInputs amount ((sortCandidates c).take INPUT_COUNT_MAX) 0).1 := rfl
  unfold find_inputs at h
  by_cases hlt :
      (selectInputs amount ((sortCandidates c).take INPUT_COUNT_MAX) 0).2 < amount
  · rw [if_pos hlt] at h
    exact absurd h (by simp)
  · rw [if_neg hlt] at h
    simp only [Except.ok.injEq] at h
    have hsum := selectInputs_snd_eq amount ((sortCandidates c).take INPUT_COUNT_MAX) 0
    have hlen := selectInputs_fst_length_le amount ((sortCandidates c).take INPUT_COUNT_MAX) 0
    have htake := selectInputs_take_eq amount ((sortCandidates c).take INPUT_COUNT_MAX) 0
    have hlentake := List.length_take INPUT_COUNT_MAX (sortCandidates c)
    have hlen128 :
        (selectInputs amount ((sortCandidates c).take INPUT_COUNT_MAX) 0).1.length ≤
          INPUT_COUNT_MAX := by omega
    refine ⟨?_, ?_, ?_, ?_, ?_⟩
    · rw [hsel]
      omega
    · rw [← h, List.length_map]
      omega
    · rw [hsel]
      exact h.symm
    · rw [hsel, ← hsel]
      rw [List.take_take] at htake
      rw [hsel]
      rwa [Nat.min_eq_left hlen128] at htake
    · intro k hk
      rw [hsel] at hk ⊢
      have := selectInputs_take_sum_lt amount
        ((sortCandidates c).take INPUT_COUNT_MAX) 0 k hk
      omega

/-- Witness for C2 at scenario S1: `find_inputs(examplePool, 1000)`
succeeds with the inputs of amounts 600 and 400. -/
theorem find_inputs_success_spec_witness :
    1000 ≤ ((selectedPairs examplePool 1000).map (·.2)).sum ∧
    ([⟨0, 0⟩, ⟨0, 1⟩] : List UtxoInput).length ≤ INPUT_COUNT_MAX ∧
    ([⟨0, 0⟩, ⟨0, 1⟩] : List UtxoInput) = (selectedPairs examplePool 1000).map (·.1) ∧
    (sortCandidates examplePool).take (selectedPairs examplePool 1000).length =
      selectedPairs examplePool 1000 ∧
    (∀ k, k < (selectedPairs examplePool 1000).length →
      (((selectedPairs examplePool 1000).take k).map (·.2)).sum < 1000) :=
  find_inputs_success_spec examplePool 1000 [⟨0, 0⟩, ⟨0, 1⟩] rfl

/-- C5: `find_inputs` fails exactly when the selection loop's final total
is strictly below the requested amount, and then the error is
`NotEnoughBalance` carrying that total as `found` and the requested
amount as `required`; on the spec's scenario S3 pool `[600, 400, 400,
300]` with requested amount 5000 it fails with
`NotEnoughBalance{found: 1700, required: 5000}`. -/
theorem find_inputs_failure_iff :
    (∀ (c : List (UtxoInput × Nat)) (amount : Nat) (e : ClientError),
      find_inputs c amount = .error e ↔
        selectedTotal c amount < amount ∧
        e = .NotEnoughBalance (selectedTotal c amount) amount) ∧
    find_inputs examplePool 5000 = .error (.NotEnoughBalance 1700 5000) := by
  constructor
  · intro c amount e
    unfold find_inputs selectedTotal
    by_cases hlt :
        (selectInputs amount ((sortCandidates c).take INPUT_COUNT_MAX) 0).2 < amount
    · simp [hlt, eq_comm]
    · simp [hlt]
  · rfl

/-- C9: when the node's info response carries no latest milestone
timestamp, `get_time_checked` skips the drift check entirely and returns
the client's current time, whatever the client clock says. -/
theorem get_time_checked_no_milestone (now : Nat) :
    get_time_checked now none = .ok now := rfl

/-- C4 counterexample: with client time 1_700_000_000 and milestone
timestamp 1_700_000_400 (drift 400 seconds), `get_time_checked` fails
with `TimeNotSynced`, whereas the claim asserts this call succeeds (and
its "iff |drift| < 300" reading also contradicts its own example). -/
theorem get_time_checked_s6_counterexample :
    get_time_checked 1700000000 (some 1700000400) =
      .error (.TimeNotSynced 1700000000 1700000400) := rfl

/-- C4 amended: away from `u32` wrap-around, `get_time_checked` succeeds
iff the client time lies in the half-open window
`[milestone - 300, milestone + 300)`: the boundary is admitted at
`milestone - 300` seconds (drift exactly 300 behind succeeds) and
rejected at `milestone + 300`; otherwise it fails with
`TimeNotSynced { current_time, milestone_timestamp }`. In particular the
claim's concrete case (client 1_700_000_000, milestone 1_700_000_400)
fails, and the 1_700_001_000 case fails as the claim states. -/
theorem get_time_checked_window (now ms : Nat)
    (h1 : FIVE_MINUTES_IN_SECONDS ≤ ms)
    (h2 : ms + FIVE_MINUTES_IN_SECONDS < U32_MOD) :
    get_time_checked now (some ms) =
      if ms - FIVE_MINUTES_IN_SECONDS ≤ now ∧ now < ms + FIVE_MINUTES_IN_SECONDS
      then .ok now
      else .error (.TimeNotSynced now ms) := by
  have hpos : 0 < U32_MOD := by unfold U32_MOD; omega
  have h3 : ms + U32_MOD - FIVE_MINUTES_IN_SECONDS =
      (ms - FIVE_MINUTES_IN_SECONDS) + U32_MOD := by omega
  have hlo : (ms + U32_MOD - FIVE_MINUTES_IN_SECONDS) % U32_MOD =
      ms - FIVE_MINUTES_IN_SECONDS := by
    rw [h3, Nat.add_mod_right, Nat.mod_eq_of_lt]
    omega
  have hhi : (ms + FIVE_MINUTES_IN_SECONDS) % U32_MOD =
      ms + FIVE_MINUTES_IN_SECONDS := Nat.mod_eq_of_lt h2
  unfold get_time_checked
  simp only [hlo, hhi]

/-- Witness for the C4 amended theorem at the lower boundary: with
milestone 1_700_000_400 and client time exactly 300 seconds behind, the
drift check passes. -/
theorem get_time_checked_window_witness :
    get_time_checked 1700000100 (some 1700000400) =
      if 1700000400 - FIVE_MINUTES_IN_SECONDS ≤ 1700000100 ∧
          1700000100 < 1700000400 + FIVE_MINUTES_IN_SECONDS
      then .ok 1700000100
      else .error (.TimeNotSynced 1700000100 1700000400) :=
  get_time_checked_window 1700000100 1700000400 (by decide) (by decide)

/-- C10: with `max_attempts = Some(0)` the round loop of
`retry_until_included` executes zero times and the call immediately fails
with `TangleInclusionError(block_id)`; the result is the same for every
node oracle, so no metadata fetch, promotion or reattachment can have
taken place. -/
theorem retry_until_included_zero_attempts (node : Node) (block_id : Nat)
    (interval : Option Nat) :
    retry_until_included node block_id interval (some 0) =
      .error (.TangleInclusionError block_id) := rfl

/-- C1 (code bug): under `nodeC1`, block 0 is reattached twice (as 10,
then 11), and in round 2 the reattachment 10 — scanned at index 1 — is
reported `Included`. The source then returns
`blocks_with_id.rotate_left(1) = [(11, 111), (10, 110)]`: the confirmed
attachment's pair `(10, get_block(10)) = (10, 110)` sits at the LAST
position, not the first, because `blocks_with_id` mirrors
`block_ids[1..]` and the rotation is off by one. This contradicts the
function's own doc ("Returns the included block at first position") and
the claim. -/
theorem retry_until_included_confirmed_not_first :
    retry_until_included nodeC1 0 none (some 5) = .ok [(11, 111), (10, 110)] ∧
    (nodeC1.meta 2 10).ledger_inclusion_state = some .Included ∧
    (10, nodeC1.getBlock 10) = (10, 110) ∧
    ((11, 111) : Nat × Nat) ≠ (10, 110) :=
  ⟨rfl, rfl, rfl, by decide⟩

theorem burn_toFrom_field (l : List α) :
    (if l.isEmpty then none else some l).getD [] = l := by
  cases l <;> simp

theorem burn_fromTo_field (o : Option (List α)) (h : o ≠ some []) :
    (if (o.getD []).isEmpty then none else some (o.getD [])) = o := by
  cases o with
  | none => simp
  | some l =>
    cases l with
    | nil => exact absurd rfl h
    | cons a tl => simp

/-- C8 counterexample: a wire value whose `accounts` field is
`Some(empty set)` does not round-trip: converting to `Burn` and back
collapses it to an absent (`None`) field. -/
theorem burn_dto_roundtrip_counterexample :
    burnToDto (burnFromDto someEmptyDto) ≠ someEmptyDto ∧
    burnToDto (burnFromDto someEmptyDto) = ⟨none, none, none, none⟩ := by
  decide

/-- C8 amended: `Burn → BurnDto → Burn` is the identity for every burn
directive, and `BurnDto → Burn → BurnDto` is the identity exactly on wire
values none of whose fields is `Some(empty)`; a `Some(empty)` field is
collapsed to `None` by the round-trip, so the absent/empty distinction is
NOT preserved on the wire-to-wire direction. -/
theorem burn_dto_roundtrip (b : Burn) (d : BurnDto)
    (h : d.accounts ≠ some [] ∧ d.nfts ≠ some [] ∧ d.foundries ≠ some [] ∧
      d.native_tokens ≠ some []) :
    burnFromDto (burnToDto b) = b ∧ burnToDto (burnFromDto d) = d := by
  obtain ⟨h1, h2, h3, h4⟩ := h
  constructor
  · obtain ⟨ba, bn, bf, bt⟩ := b
    simp only [burnToDto, burnFromDto, Burn.mk.injEq]
    exact ⟨burn_toFrom_field ba, burn_toFrom_field bn,
      burn_toFrom_field bf, burn_toFrom_field bt⟩
  · obtain ⟨da, dn, df, dt⟩ := d
    simp only [burnToDto, burnFromDto, BurnDto.mk.injEq]
    exact ⟨burn_fromTo_field da h1, burn_fromTo_field dn h2,
      burn_fromTo_field df h3, burn_fromTo_field dt h4⟩

/-- Witness for the C8 amended theorem at a burn with one account and a
wire value with a nonempty accounts set and a native-token mapping. -/
theorem burn_dto_roundtrip_witness :
    burnFromDto (burnToDto ⟨[1], [], [], []⟩) = ⟨[1], [], [], []⟩ ∧
    burnToDto (burnFromDto ⟨some [1], none, none, some [(2, 3)]⟩) =
      ⟨some [1], none, none, some [(2, 3)]⟩ :=
  burn_dto_roundtrip ⟨[1], [], [], []⟩ ⟨some [1], none, none, some [(2, 3)]⟩
    (by decide)

/-- C6: when the previous sync finished less than `MIN_SYNC_INTERVAL`
milliseconds ago and `force_syncing` is off, `sync_account` returns the
balance of the untouched account, leaves the account state and
`last_synced` exactly as the previous sync left them, and its outcome is
the same for every network oracle — no network request is consulted. -/
theorem sync_account_quick_resync (minSync : Nat) (balance : AccountState → Nat)
    (timeNow timeEnd : Nat) (signerIsLedger : Bool) (net : SyncNetwork)
    (options : SyncOptions) (lastSynced : Nat) (acc : AccountState)
    (helapsed : timeNow - lastSynced < minSync)
    (hforce : options.force_syncing = false) :
    sync_account minSync balance timeNow timeEnd signerIsLedger net options
      lastSynced acc = ⟨.ok (balance acc), acc, lastSynced⟩ := by
  unfold sync_account
  rw [if_pos ⟨helapsed, hforce⟩]

/-- Witness for C6: 4 seconds after a sync with a 10-second minimum
interval and no forcing, the call returns the cached balance with
`last_synced` untouched, although every network stage of the supplied
oracle would fail. -/
theorem sync_account_quick_resync_witness :
    sync_account 10000 (fun _ => 42) 5000 6000 false netTxFail ⟨false, 0⟩
      1000 emptyAccount = ⟨.ok 42, emptyAccount, 1000⟩ :=
  sync_account_quick_resync 10000 (fun _ => 42) 5000 6000 false netTxFail
    ⟨false, 0⟩ 1000 emptyAccount (by decide) rfl

/-- C7: when the sync actually runs (interval elapsed or forced) and any
stage of the network phase fails with `e`, `sync_account` returns that
error with the account state completely untouched and `last_synced`
unchanged; moreover, for every network oracle, an erroneous result
leaves `last_synced` at its previous value — it advances only when the
whole sync, commit and save included, succeeds. -/
theorem sync_account_failure_frame (minSync : Nat) (balance : AccountState → Nat)
    (timeNow timeEnd : Nat) (signerIsLedger : Bool) (net : SyncNetwork)
    (options : SyncOptions) (lastSynced : Nat) (acc : AccountState)
    (e : WalletError)
    (hrun : minSync ≤ timeNow - lastSynced ∨ options.force_syncing = true)
    (hfetch : fetchPipeline net signerIsLedger = .error e) :
    sync_account minSync balance timeNow timeEnd signerIsLedger net options
      lastSynced acc = ⟨.error e, acc, lastSynced⟩ ∧
    (∀ net2 : SyncNetwork,
      (sync_account minSync balance timeNow timeEnd signerIsLedger net2 options
        lastSynced acc).result.isOk = false →
      (sync_account minSync balance timeNow timeEnd signerIsLedger net2 options
        lastSynced acc).last_synced = lastSynced) := by
  constructor
  · unfold sync_account
    have hcond : ¬(timeNow - lastSynced < minSync ∧ options.force_syncing = false) := by
      rcases hrun with h | h
      · intro hc
        omega
      · intro hc
        rw [h] at hc
        exact absurd hc.2 (by simp)
    rw [if_neg hcond, hfetch]
  · intro net2 hres
    unfold sync_account at hres ⊢
    by_cases hc : timeNow - lastSynced < minSync ∧ options.force_syncing = false
    · rw [if_pos hc]
    · rw [if_neg hc] at hres ⊢
      cases hpipe : fetchPipeline net2 signerIsLedger with
      | error e2 => rfl
      | ok v =>
        obtain ⟨tsr, awb, allOutputs⟩ := v
        cases hup : update_account acc awb allOutputs tsr options net2.save with
        | mk acc1 oe =>
          cases oe with
          | none =>
            simp only [hpipe, hup] at hres
            simp [Except.isOk, Except.toBool] at hres
          | some e2 => simp only [hup]

/-- Witness for C7: a forced-interval sync against an oracle whose very
first fetch fails with a network error returns that error with the
account and `last_synced` untouched. -/
theorem sync_account_failure_frame_witness :
    sync_account 10000 (fun _ => 42) 50000 60000 false netTxFail ⟨false, 0⟩
      1000 emptyAccount = ⟨.error (.Network 7), emptyAccount, 1000⟩ ∧
    (∀ net2 : SyncNetwork,
      (sync_account 10000 (fun _ => 42) 50000 60000 false net2 ⟨false, 0⟩
        1000 emptyAccount).result.isOk = false →
      (sync_account 10000 (fun _ => 42) 50000 60000 false net2 ⟨false, 0⟩
        1000 emptyAccount).last_synced = 1000) :=
  sync_account_failure_frame 10000 (fun _ => 42) 50000 60000 false netTxFail
    ⟨false, 0⟩ 1000 emptyAccount (.Network 7) (Or.inl (by decide)) rfl

theorem lookupMap_removeMap : ∀ (m : List (Nat × α)) (k k2 : Nat),
    lookupMap (removeMap m k) k2 = if k2 = k then none else lookupMap m k2
  | [], k, k2 => by simp [removeMap, lookupMap]
  | p :: rest, k, k2 => by
    have ih := lookupMap_removeMap rest k k2
    by_cases hk : k2 = k
    · subst hk
      by_cases hp : p.1 = k2
      · simp [removeMap, lookupMap, hp, ih]
      · simp [removeMap, lookupMap, hp, ih]
    · by_cases hp : p.1 = k
      · have hkk2 : ¬k = k2 := by omega
        simp [removeMap, lookupMap, hp, hkk2, ih, hk]
      · simp [removeMap, lookupMap, hp, ih, hk]

theorem lookupMap_insertMap (m : List (Nat × α)) (k k2 : Nat) (v : α) :
    lookupMap (insertMap m k v) k2 = if k2 = k then some v else lookupMap m k2 := by
  unfold insertMap
  by_cases hk : k2 = k
  · simp [lookupMap, hk]
  · have : ¬k = k2 := fun hc => hk hc.symm
    simp [lookupMap, this, lookupMap_removeMap, hk]

theorem lookupMap_modifyMap : ∀ (m : List (Nat × α)) (k k2 : Nat) (f : α → α),
    lookupMap (modifyMap m k f) k2 =
      if k2 = k then (lookupMap m k2).map f else lookupMap m k2
  | [], k, k2, f => by simp [modifyMap, lookupMap]
  | p :: rest, k, k2, f => by
    have ih := lookupMap_modifyMap rest k k2 f
    by_cases hk : k2 = k
    · subst hk
      by_cases hp : p.1 = k2
      · simp [modifyMap, lookupMap, hp, ih]
      · simp [modifyMap, lookupMap, hp, ih]
    · by_cases hp : p.1 = k
      · have hkk2 : ¬k = k2 := by omega
        simp [modifyMap, lookupMap, hp, hkk2, ih, hk]
      · simp [modifyMap, lookupMap, hp, ih, hk]

theorem mem_removeElem : ∀ (l : List Nat) (k x : Nat),
    x ∈ removeElem l k ↔ x ∈ l ∧ x ≠ k
  | [], k, x => by simp [removeElem]
  | j :: rest, k, x => by
    have ih := mem_removeElem rest k x
    by_cases hj : j = k
    · simp only [removeElem, if_pos hj, ih, List.mem_cons]
      constructor
      · exact fun h => ⟨Or.inr h.1, h.2⟩
      · rintro ⟨hx | hx, hne⟩
        · exact absurd (hx.trans hj) hne
        · exact ⟨hx, hne⟩
    · simp only [removeElem, if_neg hj, List.mem_cons, ih]
      constructor
      · rintro (hx | ⟨hx, hne⟩)
        · exact ⟨Or.inl hx, fun hc => hj (hx ▸ hc)⟩
        · exact ⟨Or.inr hx, hne⟩
      · rintro ⟨hx | hx, hne⟩
        · exact Or.inl hx
        · exact Or.inr ⟨hx, hne⟩

theorem setSpent_is_spent (o : OutputData) : (setSpent o).is_spent = true := rfl

theorem map_setSpent_spent (x : Option OutputData) (o : OutputData)
    (h : x.map setSpent = some o) : o.is_spent = true := by
  cases x with
  | none => exact absurd h (by simp)
  | some a =>
    simp at h
    rw [← h]
    rfl

theorem map_setSpent_idem (x : Option OutputData) :
    (x.map setSpent).map setSpent = x.map setSpent := by
  cases x <;> rfl

theorem setSpent_comp : setSpent ∘ setSpent = setSpent :=
  funext fun _ => rfl

theorem map_setSpent_filter_unspent (x : Option OutputData) :
    (x.map setSpent).filter (fun o => !o.is_spent) = none := by
  cases x <;> rfl

theorem markAddressesUsed_fields : ∀ (l : List AddressWithBalance) (acc : AccountState),
    (markAddressesUsed acc l).1.addresses_with_balance = acc.addresses_with_balance ∧
    (markAddressesUsed acc l).1.outputs = acc.outputs ∧
    (markAddressesUsed acc l).1.unspent_outputs = acc.unspent_outputs ∧
    (markAddressesUsed acc l).1.locked_outputs = acc.locked_outputs
  | [], acc => by simp [markAddressesUsed]
  | a :: rest, acc => by
    simp only [markAddressesUsed]
    by_cases hint : a.internal = true
    · rw [hint]
      simp only [if_true]
      cases hm : markUsedGo acc.internal_addresses a.key_index true with
      | none => simp [hm]
      | some addrs =>
        have ih := markAddressesUsed_fields rest { acc with internal_addresses := addrs }
        simp only [hm]
        simpa using ih
    · have hf : a.internal = false := by simpa using hint
      rw [hf]
      simp only [Bool.false_eq_true, if_false]
      cases hm : markUsedGo acc.public_addresses a.key_index false with
      | none => simp [hm]
      | some addrs =>
        have ih := markAddressesUsed_fields rest { acc with public_addresses := addrs }
        simp only [hm]
        simpa using ih

theorem insertOutputs_locked : ∀ (l : List OutputData) (acc : AccountState),
    (insertOutputs acc l).locked_outputs = acc.locked_outputs
  | [], _ => rfl
  | o :: rest, acc => by
    have ih := insertOutputs_locked rest { acc with
      outputs := insertMap acc.outputs o.output_id o,
      unspent_outputs := if o.is_spent then acc.unspent_outputs
        else insertMap acc.unspent_outputs o.output_id o }
    simpa [insertOutputs] using ih

theorem insertOutputs_inv_at : ∀ (l : List OutputData) (acc : AccountState) (id : Nat),
    (∀ q ∈ l, q.output_id = id → q.is_spent = false) →
    lookupMap acc.unspent_outputs id =
      (lookupMap acc.outputs id).filter (fun q => !q.is_spent) →
    lookupMap (insertOutputs acc l).unspent_outputs id =
      (lookupMap (insertOutputs acc l).outputs id).filter (fun q => !q.is_spent)
  | [], _, _ => fun _ hpre => hpre
  | o :: rest, acc, id => fun hl hpre => by
    have hrest : ∀ q ∈ rest, q.output_id = id → q.is_spent = false :=
      fun q hq => hl q (List.mem_cons_of_mem o hq)
    simp only [insertOutputs]
    apply insertOutputs_inv_at rest _ id hrest
    simp only []
    split_ifs with hs
    · have hne : ¬id = o.output_id := by
        intro hc
        have hfalse := hl o (List.mem_cons_self o rest) hc.symm
        rw [hfalse] at hs
        exact absurd hs (by simp)
      rw [lookupMap_insertMap, if_neg hne]
      exact hpre
    · have hsf : o.is_spent = false := by simpa using hs
      by_cases hid : id = o.output_id
      · rw [lookupMap_insertMap, lookupMap_insertMap, if_pos hid, if_pos hid]
        simp [Option.filter, hsf]
      · rw [lookupMap_insertMap, lookupMap_insertMap, if_neg hid, if_neg hid]
        exact hpre

theorem applyTransactions_fields : ∀ (l : List TransactionData) (acc : AccountState),
    (applyTransactions acc l).outputs = acc.outputs ∧
    (applyTransactions acc l).unspent_outputs = acc.unspent_outputs ∧
    (applyTransactions acc l).locked_outputs = acc.locked_outputs
  | [], _ => ⟨rfl, rfl, rfl⟩
  | t :: rest, acc => by
    have ih := applyTransactions_fields rest { acc with
      pending_transactions :=
        (match t.inclusion_state with
          | .Confirmed => removeElem acc.pending_transactions t.transaction_id
          | .Conflicting => removeElem acc.pending_transactions t.transaction_id
          | _ => acc.pending_transactions),
      transactions := insertMap acc.transactions t.transaction_id t }
    simpa [applyTransactions] using ih

theorem processSpent_outputs : ∀ (l : List Nat) (acc : AccountState) (id : Nat),
    lookupMap (processSpentOutputs acc l).outputs id =
      if id ∈ l then (lookupMap acc.outputs id).map setSpent
      else lookupMap acc.outputs id
  | [], acc, id => by simp [processSpentOutputs]
  | j :: rest, acc, id => by
    have ih := processSpent_outputs rest { acc with
      outputs := modifyMap acc.outputs j setSpent,
      locked_outputs := removeElem acc.locked_outputs j,
      unspent_outputs := removeMap acc.unspent_outputs j } id
    simp only [processSpentOutputs]
    rw [ih]
    by_cases hj : id = j
    · subst hj
      by_cases hr : id ∈ rest
      · simp [lookupMap_modifyMap, hr, map_setSpent_idem, setSpent_comp]
      · simp [lookupMap_modifyMap, hr]
    · by_cases hr : id ∈ rest
      · simp [lookupMap_modifyMap, hr, hj]
      · simp [lookupMap_modifyMap, hr, hj]

theorem processSpent_unspent : ∀ (l : List Nat) (acc : AccountState) (id : Nat),
    lookupMap (processSpentOutputs acc l).unspent_outputs id =
      if id ∈ l then none else lookupMap acc.unspent_outputs id
  | [], acc, id => by simp [processSpentOutputs]
  | j :: rest, acc, id => by
    have ih := processSpent_unspent rest { acc with
      outputs := modifyMap acc.outputs j setSpent,
      locked_outputs := removeElem acc.locked_outputs j,
      unspent_outputs := removeMap acc.unspent_outputs j } id
    simp only [processSpentOutputs]
    rw [ih]
    by_cases hj : id = j
    · subst hj
      by_cases hr : id ∈ rest
      · simp [lookupMap_removeMap, hr]
      · simp [lookupMap_removeMap, hr]
    · by_cases hr : id ∈ rest
      · simp [lookupMap_removeMap, hr, hj]
      · simp [lookupMap_removeMap, hr, hj]

theorem processSpent_locked : ∀ (l : List Nat) (acc : AccountState) (x : Nat),
    x ∈ (processSpentOutputs acc l).locked_outputs ↔
      x ∈ acc.locked_outputs ∧ x ∉ l
  | [], acc, x => by simp [processSpentOutputs]
  | j :: rest, acc, x => by
    have ih := processSpent_locked rest { acc with
      outputs := modifyMap acc.outputs j setSpent,
      locked_outputs := removeElem acc.locked_outputs j,
      unspent_outputs := removeMap acc.unspent_outputs j } x
    simp only [processSpentOutputs]
    rw [ih]
    simp only [mem_removeElem, List.mem_cons]
    tauto

theorem processUnlock_outputs : ∀ (l : List Nat) (acc : AccountState) (id : Nat),
    lookupMap (processOutputsToUnlock acc l).outputs id =
      if id ∈ l then (lookupMap acc.outputs id).map setSpent
      else lookupMap acc.outputs id
  | [], acc, id => by simp [processOutputsToUnlock]
  | j :: rest, acc, id => by
    have ih := processUnlock_outputs rest { acc with
      outputs := modifyMap acc.outputs j setSpent,
      locked_outputs := removeElem acc.locked_outputs j } id
    simp only [processOutputsToUnlock]
    rw [ih]
    by_cases hj : id = j
    · subst hj
      by_cases hr : id ∈ rest
      · simp [lookupMap_modifyMap, hr, map_setSpent_idem, setSpent_comp]
      · simp [lookupMap_modifyMap, hr]
    · by_cases hr : id ∈ rest
      · simp [lookupMap_modifyMap, hr, hj]
      · simp [lookupMap_modifyMap, hr, hj]

theorem processUnlock_unspent : ∀ (l : List Nat) (acc : AccountState),
    (processOutputsToUnlock acc l).unspent_outputs = acc.unspent_outputs
  | [], _ => rfl
  | j :: rest, acc => by
    have ih := processUnlock_unspent rest { acc with
      outputs := modifyMap acc.outputs j setSpent,
      locked_outputs := removeElem acc.locked_outputs j }
    simpa [processOutputsToUnlock] using ih

theorem processUnlock_locked : ∀ (l : List Nat) (acc : AccountState) (x : Nat),
    x ∈ (processOutputsToUnlock acc l).locked_outputs ↔
      x ∈ acc.locked_outputs ∧ x ∉ l
  | [], acc, x => by simp [processOutputsToUnlock]
  | j :: rest, acc, x => by
    have ih := processUnlock_locked rest { acc with
      outputs := modifyMap acc.outputs j setSpent,
      locked_outputs := removeElem acc.locked_outputs j } x
    simp only [processOutputsToUnlock]
    rw [ih]
    simp only [mem_removeElem, List.mem_cons]
    tauto

/-- C3 counterexample: committing a sync whose `output_ids_to_unlock` is
`[1]` against a state where output 1 is unspent and locked marks
`outputs[1].is_spent = true` and unlocks it, but does NOT remove it from
`unspent_outputs` (the source's unlock loop only calls
`locked_outputs.remove`): afterwards `unspent_outputs` still holds
output 1 with a stale unspent copy, so `unspent_outputs` differs from
`{o ∈ outputs | not o.is_spent}` and the claimed removal did not happen. -/
theorem update_account_unlock_not_removed :
    (update_account preC3 [] [] ⟨[], [], [1]⟩ ⟨false, 0⟩ none).2 = none ∧
    lookupMap (update_account preC3 [] [] ⟨[], [], [1]⟩ ⟨false, 0⟩ none).1.unspent_outputs 1 =
      some ⟨1, 50, false⟩ ∧
    lookupMap (update_account preC3 [] [] ⟨[], [], [1]⟩ ⟨false, 0⟩ none).1.outputs 1 =
      some ⟨1, 50, true⟩ ∧
    (update_account preC3 [] [] ⟨[], [], [1]⟩ ⟨false, 0⟩ none).1.locked_outputs = [] := by
  decide

/-- C3 amended: after every successful `update_account` commit, every id
of `spent_output_ids` is gone from `unspent_outputs` and
`locked_outputs` and is marked spent in `outputs` when present; every id
of `output_ids_to_unlock` is gone from `locked_outputs` and marked spent
in `outputs` when present but is NOT removed from `unspent_outputs`;
consequently the relation `unspent_outputs = {o ∈ outputs | not
o.is_spent}` is re-established pointwise only at ids outside
`output_ids_to_unlock` (given it held before at that id and the newly
observed outputs carrying that id are unspent), while an unlocked id can
remain in `unspent_outputs` as a stale unspent copy. -/
theorem update_account_commit_spec (acc : AccountState)
    (awb : List AddressWithBalance) (outs : List OutputData)
    (tsr : TransactionSyncResult) (options : SyncOptions)
    (save : Option WalletError)
    (h : (update_account acc awb outs tsr options save).2 = none) :
    (∀ id ∈ tsr.spent_output_ids,
      lookupMap (update_account acc awb outs tsr options save).1.unspent_outputs id = none ∧
      id ∉ (update_account acc awb outs tsr options save).1.locked_outputs ∧
      (∀ o, lookupMap (update_account acc awb outs tsr options save).1.outputs id = some o →
        o.is_spent = true)) ∧
    (∀ id ∈ tsr.output_ids_to_unlock,
      id ∉ (update_account acc awb outs tsr options save).1.locked_outputs ∧
      (∀ o, lookupMap (update_account acc awb outs tsr options save).1.outputs id = some o →
        o.is_spent = true)) ∧
    (∀ id, id ∉ tsr.output_ids_to_unlock →
      lookupMap acc.unspent_outputs id =
        (lookupMap acc.outputs id).filter (fun q => !q.is_spent) →
      (∀ q ∈ outs, q.output_id = id → q.is_spent = false) →
      lookupMap (update_account acc awb outs tsr options save).1.unspent_outputs id =
        (lookupMap (update_account acc awb outs tsr options save).1.outputs id).filter
          (fun q => !q.is_spent)) := by
  cases hm : markAddressesUsed acc awb with
  | mk acc1 ok =>
    cases ok with
    | false =>
      rw [update_account, hm] at h
      exact absurd h (by simp)
    | true =>
      have ho1 : acc1.outputs = acc.outputs := by
        have hf := (markAddressesUsed_fields awb acc).2.1
        rw [hm] at hf
        exact hf
      have hu1 : acc1.unspent_outputs = acc.unspent_outputs := by
        have hf := (markAddressesUsed_fields awb acc).2.2.1
        rw [hm] at hf
        exact hf
      simp only [update_account, hm]
      refine ⟨?_, ?_, ?_⟩
      · intro id hid
        refine ⟨?_, ?_, ?_⟩
        · rw [processUnlock_unspent, processSpent_unspent, if_pos hid]
        · simp only [processUnlock_locked, processSpent_locked]
          tauto
        · intro o ho
          rw [processUnlock_outputs] at ho
          by_cases hul : id ∈ tsr.output_ids_to_unlock
          · rw [if_pos hul] at ho
            exact map_setSpent_spent _ o ho
          · rw [if_neg hul, processSpent_outputs, if_pos hid] at ho
            exact map_setSpent_spent _ o ho
      · intro id hid
        refine ⟨?_, ?_⟩
        · simp only [processUnlock_locked]
          tauto
        · intro o ho
          rw [processUnlock_outputs, if_pos hid] at ho
          exact map_setSpent_spent _ o ho
      · intro id hul hpre houts
        rw [processUnlock_unspent, processUnlock_outputs, if_neg hul]
        by_cases hsp : id ∈ tsr.spent_output_ids
        · rw [processSpent_unspent, if_pos hsp, processSpent_outputs, if_pos hsp]
          exact (map_setSpent_filter_unspent _).symm
        · rw [processSpent_unspent, if_neg hsp, processSpent_outputs, if_neg hsp]
          rw [(applyTransactions_fields tsr.updated_transactions _).1,
            (applyTransactions_fields tsr.updated_transactions _).2.1]
          apply insertOutputs_inv_at outs _ id houts
          simp only []
          rw [ho1, hu1]
          exact hpre

/-- Witness for the C3 amended theorem: a commit over `preC3W` that
spends output 1, unlocks output 2 and observes a fresh unspent output 3. -/
theorem update_account_commit_spec_witness :
    (∀ id ∈ ([1] : List Nat),
      lookupMap (update_account preC3W [] [⟨3, 10, false⟩] ⟨[], [1], [2]⟩ ⟨false, 0⟩
        none).1.unspent_outputs id = none ∧
      id ∉ (update_account preC3W [] [⟨3, 10, false⟩] ⟨[], [1], [2]⟩ ⟨false, 0⟩
        none).1.locked_outputs ∧
      (∀ o, lookupMap (update_account preC3W [] [⟨3, 10, false⟩] ⟨[], [1], [2]⟩ ⟨false, 0⟩
        none).1.outputs id = some o → o.is_spent = true)) ∧
    (∀ id ∈ ([2] : List Nat),
      id ∉ (update_account preC3W [] [⟨3, 10, false⟩] ⟨[], [1], [2]⟩ ⟨false, 0⟩
        none).1.locked_outputs ∧
      (∀ o, lookupMap (update_account preC3W [] [⟨3, 10, false⟩] ⟨[], [1], [2]⟩ ⟨false, 0⟩
        none).1.outputs id = some o → o.is_spent = true)) ∧
    (∀ id, id ∉ ([2] : List Nat) →
      lookupMap preC3W.unspent_outputs id =
        (lookupMap preC3W.outputs id).filter (fun q => !q.is_spent) →
      (∀ q ∈ ([⟨3, 10, false⟩] : List OutputData), q.output_id = id → q.is_spent = false) →
      lookupMap (update_account preC3W [] [⟨3, 10, false⟩] ⟨[], [1], [2]⟩ ⟨false, 0⟩
        none).1.unspent_outputs id =
        (lookupMap (update_account preC3W [] [⟨3, 10, false⟩] ⟨[], [1], [2]⟩ ⟨false, 0⟩
          none).1.outputs id).filter (fun q => !q.is_spent)) :=
  update_account_commit_spec preC3W [] [⟨3, 10, false⟩] ⟨[], [1], [2]⟩ ⟨false, 0⟩ none
    (by decide)
